import Mathlib

/-!
Shallow embedding of the task-management program in `System.py`
(class `Task` and class `TaskManager`), together with proofs about it.

Python strings are modelled as Lean `String`s; the Python string
operations used by the program (`str.split` on a one-character
separator, `str.lower`, `str.strip`, `int(...)`,
`datetime.strptime(s, '%Y-%m-%d')`, `str(date)`, `str(int)`) are
modelled by explicit functions over `List Char` below, following
CPython's documented behaviour on ASCII text.  Fallible operations
return `Option`; a raised exception is modelled by `none`.
-/

namespace TaskSystem

/-! ## Python string primitives -/

/-- Model of `str.lower` on one character (ASCII range, which is all the
program's literals need). -/
def lowerChar (c : Char) : Char :=
  if 65 ≤ c.toNat ∧ c.toNat ≤ 90 then Char.ofNat (c.toNat + 32) else c

/-- Model of `str.lower`. -/
def pyLower (s : String) : String := ⟨s.data.map lowerChar⟩

/-- Whitespace characters stripped by `str.strip` (ASCII range). -/
def isPySpace (c : Char) : Bool :=
  c == Char.ofNat 32 || c == Char.ofNat 9 || c == Char.ofNat 10 ||
    c == Char.ofNat 13 || c == Char.ofNat 11 || c == Char.ofNat 12

/-- Strip whitespace from both ends of a character list. -/
def stripList (cs : List Char) : List Char :=
  ((cs.dropWhile isPySpace).reverse.dropWhile isPySpace).reverse

/-- Model of `str.strip()`. -/
def pyStrip (s : String) : String := ⟨stripList s.data⟩

/-- Model of `str.split(sep)` for a one-character separator: the result
always has one more part than there are separator occurrences, and empty
parts are kept, exactly as in Python. -/
def splitChar (sep : Char) : List Char → List (List Char)
  | [] => [[]]
  | c :: cs =>
    if c == sep then [] :: splitChar sep cs
    else
      match splitChar sep cs with
      | [] => [[c]]
      | g :: gs => (c :: g) :: gs

/-- Join parts back with the separator (inverse of `splitChar`). -/
def joinSep (sep : Char) : List (List Char) → List Char
  | [] => []
  | [g] => g
  | g :: gs => g ++ sep :: joinSep sep gs

/-- Numeric value of a decimal digit character. -/
def digitVal (c : Char) : Nat := c.toNat - 48

/-- Value of a big-endian list of decimal digit characters. -/
def digitsVal (cs : List Char) : Nat :=
  cs.foldl (fun a c => a * 10 + digitVal c) 0

/-- Big-endian decimal digits of a natural number, as produced by
Python's `str(int)` for nonnegative values. -/
def natDigits (n : Nat) : List Char :=
  if _h : n < 10 then [Nat.digitChar n]
  else natDigits (n / 10) ++ [Nat.digitChar (n % 10)]
decreasing_by exact Nat.div_lt_self (by omega) (by omega)

/-- Model of Python `str(int)`. -/
def intStr (p : Int) : String :=
  if p < 0 then ⟨Char.ofNat 45 :: natDigits p.natAbs⟩ else ⟨natDigits p.natAbs⟩

/-- Scanner for the digit part of CPython's `int(str)`: decimal digits
with single underscores allowed only between two digits; returns the
digits with underscores removed. -/
def scanDigits : List Char → Option (List Char)
  | [] => some []
  | c :: rest =>
    if c.isDigit then (scanDigits rest).map (fun ds => c :: ds)
    else if c == Char.ofNat 95 then
      match rest with
      | [] => none
      | d :: _ => if d.isDigit then scanDigits rest else none
    else none

/-- Unsigned part of `int(str)`: must be nonempty and start with a digit. -/
def pyNatList? (cs : List Char) : Option Nat :=
  match cs with
  | [] => none
  | c :: _ => if c.isDigit then (scanDigits cs).map digitsVal else none

/-- Signed part of `int(str)` after whitespace stripping. -/
def pyIntList? (cs : List Char) : Option Int :=
  match cs with
  | [] => none
  | c :: rest =>
    if c == Char.ofNat 43 then (pyNatList? rest).map (fun n => (n : Int))
    else if c == Char.ofNat 45 then (pyNatList? rest).map (fun n => -(n : Int))
    else (pyNatList? (c :: rest)).map (fun n => (n : Int))

/-- Model of Python `int(str)` (ASCII decimal): strips whitespace, then
an optional sign followed by digits with optional single underscores.
Raising `ValueError` is modelled by `none`. -/
def pyInt? (s : String) : Option Int := pyIntList? (stripList s.data)

/-! ## Calendar arithmetic (as in Python's `datetime`) -/

/-- Gregorian leap-year rule, as in `datetime`. -/
def isLeapYear (y : Nat) : Bool :=
  y % 4 == 0 && (y % 100 != 0 || y % 400 == 0)

/-- Number of days of month `m` in year `y`. -/
def daysInMonth (y m : Nat) : Nat :=
  if m = 2 then (if isLeapYear y then 29 else 28)
  else if m = 4 ∨ m = 6 ∨ m = 9 ∨ m = 11 then 30
  else 31

/-- Days in year `y` before the first day of month `m`. -/
def daysBeforeMonth (y m : Nat) : Nat :=
  ((List.range (m - 1)).map (fun i => daysInMonth y (i + 1))).sum

/-- A calendar date, the payload of the `datetime` stored in
`Task.deadline` (always midnight, since it is parsed with `'%Y-%m-%d'`). -/
structure Date where
  year : Nat
  month : Nat
  day : Nat
deriving DecidableEq, Repr

/-- The dates representable by Python's `datetime` (`MINYEAR = 1`,
`MAXYEAR = 9999`, day within the month). -/
def Date.Valid (d : Date) : Prop :=
  1 ≤ d.year ∧ d.year ≤ 9999 ∧ 1 ≤ d.month ∧ d.month ≤ 12 ∧
    1 ≤ d.day ∧ d.day ≤ daysInMonth d.year d.month

instance (d : Date) : Decidable d.Valid := by
  unfold Date.Valid; infer_instance

/-- Proleptic-Gregorian day number, as `datetime.date.toordinal`. -/
def Date.toOrdinal (d : Date) : Nat :=
  365 * (d.year - 1) + (d.year - 1) / 4 - (d.year - 1) / 100 +
    (d.year - 1) / 400 + daysBeforeMonth d.year d.month + d.day

/-- The instant (in minutes) of midnight of a date; `Task.deadline` is
this instant, and `now` in the scanner is an arbitrary instant in
minutes.  `timedelta(days=1)` is 1440 minutes. -/
def Date.toMinutes (d : Date) : Int := (d.toOrdinal : Int) * 1440

/-- Model of `datetime.strptime(s, '%Y-%m-%d')` followed by the
`datetime` range checks: CPython's `_strptime` regular expression
requires exactly four digits for `%Y`, one or two digits valued 1–12
for `%m`, one or two digits valued 1–31 for `%d`, the whole string
consumed; then the `datetime` constructor checks `year ≥ 1` and that
the day exists in the month.  `ValueError` is modelled by `none`. -/
def parseDate (s : String) : Option Date :=
  match splitChar (Char.ofNat 45) s.data with
  | [ys, ms, ds] =>
    if ys.length == 4 && ys.all Char.isDigit &&
        (ms.length == 1 || ms.length == 2) && ms.all Char.isDigit &&
        (ds.length == 1 || ds.length == 2) && ds.all Char.isDigit then
      if 1 ≤ digitsVal ms && digitsVal ms ≤ 12 &&
          1 ≤ digitsVal ds && digitsVal ds ≤ 31 then
        if 1 ≤ digitsVal ys &&
            digitsVal ds ≤ daysInMonth (digitsVal ys) (digitsVal ms) then
          some ⟨digitsVal ys, digitsVal ms, digitsVal ds⟩
        else none
      else none
    else none
  | _ => none

/-- Model of Python `str(date)` (ISO format `%04d-%02d-%02d`): each
component is zero-padded to its field width. -/
def padZeros (w : Nat) (cs : List Char) : List Char :=
  List.replicate (w - cs.length) (Char.ofNat 48) ++ cs

/-- String form of a date as written by `to_file_string`. -/
def dateToString (d : Date) : String :=
  ⟨padZeros 4 (natDigits d.year) ++ Char.ofNat 45 ::
    (padZeros 2 (natDigits d.month) ++ Char.ofNat 45 ::
      padZeros 2 (natDigits d.day))⟩

/-! ## The Task entity (`class Task`) -/

/-- The fields of a `Task` object.  `deadline` holds the parsed date
(the Python `datetime` at midnight); `completed` starts `False`. -/
structure Task where
  title : String
  description : String
  category : String
  priority : Int
  deadline : Date
  completed : Bool
  assigned_user : String
deriving DecidableEq, Repr

/-- Model of `Task.__init__`: parses the deadline string with
`strptime`; a `ValueError` (modelled `none`) aborts creation. -/
def Task.create (title description category : String) (priority : Int)
    (deadline : String) (assigned_user : String) : Option Task :=
  (parseDate deadline).map (fun d =>
    { title := title, description := description, category := category,
      priority := priority, deadline := d, completed := false,
      assigned_user := assigned_user })

/-- Model of `Task.mark_as_completed`. -/
def Task.mark_as_completed (t : Task) : Task := { t with completed := true }

/-- Model of `str(bool)` as written by `to_file_string`. -/
def pyBoolStr (b : Bool) : String := if b then "True" else "False"

/-- Model of `Task.to_file_string`: the seven fields joined with `|`. -/
def Task.to_file_string (t : Task) : String :=
  t.title ++ "|" ++ t.description ++ "|" ++ t.category ++ "|" ++
    intStr t.priority ++ "|" ++ dateToString t.deadline ++ "|" ++
    t.assigned_user ++ "|" ++ pyBoolStr t.completed

/-- Model of `Task.from_file_string`: splits the line on `|` and indexes
parts 0–6 (extra parts are never touched, exactly as in the source);
a missing index (`IndexError`), a failing `int(parts[3])` or a failing
date parse of `parts[4]` is `none`. -/
def Task.from_file_string (line : String) : Option Task :=
  match splitChar (Char.ofNat 124) line.data with
  | p0 :: p1 :: p2 :: p3 :: p4 :: p5 :: p6 :: _ =>
    match pyInt? ⟨p3⟩, parseDate ⟨p4⟩ with
    | some pr, some dl =>
      some { title := ⟨p0⟩, description := ⟨p1⟩, category := ⟨p2⟩,
             priority := pr, deadline := dl, assigned_user := ⟨p5⟩,
             completed := pyLower ⟨p6⟩ == "true" }
    | _, _ => none
  | _ => none

/-- Priority rendering used by `Task.to_row`. -/
def priorityStr (p : Int) : String :=
  if p = 1 then "High" else if p = 2 then "Medium"
  else if p = 3 then "Low" else "Unknown"

/-- Model of `Task.to_row`. -/
def Task.to_row (t : Task) : List String :=
  [t.title, t.description, t.category, priorityStr t.priority,
    dateToString t.deadline, t.assigned_user,
    if t.completed then "Yes" else "No"]

/-! ## The store (`class TaskManager`)

The in-memory collection is the `List Task` in insertion order.  Each
operation returns the new collection together with a `Bool` that
records whether `save_tasks_to_file` was called (the file is rewritten
exactly when it is `true`). -/

/-- The case-insensitive title comparison used by
`mark_task_as_completed` and `delete_task`. -/
def titleMatches (t : Task) (title : String) : Bool :=
  pyLower t.title == pyLower title

/-- Model of `TaskManager.mark_task_as_completed`: walk the collection
in order; at the first title match, set `completed` and save, leaving
the rest untouched; otherwise report not-found without saving. -/
def mark_task_as_completed : List Task → String → List Task × Bool
  | [], _ => ([], false)
  | t :: ts, title =>
    if titleMatches t title then (t.mark_as_completed :: ts, true)
    else
      let r := mark_task_as_completed ts title
      (t :: r.1, r.2)

/-- Model of `TaskManager.delete_task`: remove the first title match
and save; otherwise report not-found without saving. -/
def delete_task : List Task → String → List Task × Bool
  | [], _ => ([], false)
  | t :: ts, title =>
    if titleMatches t title then (ts, true)
    else
      let r := delete_task ts title
      (t :: r.1, r.2)

/-- Model of `TaskManager.list_tasks_by_category`: the rows of the
tasks whose category matches case-insensitively, in order. -/
def list_tasks_by_category (tasks : List Task) (category : String) :
    List (List String) :=
  tasks.filterMap (fun t =>
    if pyLower t.category == pyLower category then some t.to_row else none)

/-- Model of `TaskManager.load_tasks_from_file` on the file's lines:
each line is stripped and deserialized in order; the first failing line
raises, aborting the whole load (modelled by `none`). -/
def load_tasks_from_file : List String → Option (List Task)
  | [] => some []
  | l :: rest =>
    match Task.from_file_string (pyStrip l) with
    | none => none
    | some t => (load_tasks_from_file rest).map (fun ts => t :: ts)

/-- Model of `TaskManager.__init__`'s loading step: a missing backing
file (`none`) yields the empty collection; an existing file is loaded
line by line, and a failing line propagates out of the constructor, so
the caller obtains no task collection at all. -/
def taskManager_open (file : Option (List String)) : Option (List Task) :=
  match file with
  | none => some []
  | some lines => load_tasks_from_file lines

/-- The reminder line appended by `check_upcoming_deadlines`. -/
def reminderMsg (t : Task) : String :=
  "Task " ++ ⟨[Char.ofNat 39]⟩ ++ t.title ++ ⟨[Char.ofNat 39]⟩ ++
    " has a deadline within 24 hours!"

/-- The filter of one scan cycle of `check_upcoming_deadlines`:
`not task.completed and task.deadline > now and
task.deadline < now + timedelta(days=1)`. -/
def dueSoon (t : Task) (now : Int) : Prop :=
  t.completed = false ∧ now < t.deadline.toMinutes ∧
    t.deadline.toMinutes < now + 1440

instance (t : Task) (now : Int) : Decidable (dueSoon t now) := by
  unfold dueSoon; infer_instance

/-- Model of `TaskManager.check_upcoming_deadlines`: the contents of
`upcoming_reminders` after the cycle finishes. -/
def check_upcoming_deadlines (tasks : List Task) (now : Int) : List String :=
  tasks.filterMap (fun t =>
    if dueSoon t now then some (reminderMsg t) else none)

/-- The successive states of the shared `upcoming_reminders` list
during one scan cycle: the cycle first calls `clear()` (state `[]`) and
then `append`s one reminder at a time, so the list passes through every
prefix of the final snapshot.  Each state is separately observable by
the main thread, which reads `upcoming_reminders` concurrently. -/
def scan_cycle_states (tasks : List Task) (now : Int) : List (List String) :=
  (List.range ((check_upcoming_deadlines tasks now).length + 1)).map
    (fun i => (check_upcoming_deadlines tasks now).take i)

/-! ## Spec-side definitions (for comparison with the source) -/

/-- Modelled from the spec: the strict `YYYY-MM-DD` shape the spec
claims is required — exactly four digits, a dash, exactly two digits, a
dash, exactly two digits. -/
def isStrictYMD (s : String) : Bool :=
  match s.data with
  | [y1, y2, y3, y4, h1, m1, m2, h2, d1, d2] =>
    ([y1, y2, y3, y4, m1, m2, d1, d2].all Char.isDigit) &&
      h1 == Char.ofNat 45 && h2 == Char.ofNat 45
  | _ => false

/-- Fields that do not contain the `|` delimiter (the documented
constraint on serialized tasks). -/
def noDelim (s : String) : Bool := s.data.all (fun c => !(c == Char.ofNat 124))

/-- Two incomplete tasks due within 24 hours, used to exhibit the scan
cycle's intermediate states and as witnesses elsewhere. -/
def twoDueTasks : List Task :=
  [{ title := "alpha", description := "", category := "c", priority := 1,
     deadline := ⟨2099, 1, 1⟩, completed := false, assigned_user := "u" },
   { title := "beta", description := "", category := "c", priority := 1,
     deadline := ⟨2099, 1, 1⟩, completed := false, assigned_user := "u" }]

/-- An instant one hour before midnight of 2099-01-01 (in minutes). -/
def beforeMidnight : Int := Date.toMinutes ⟨2099, 1, 1⟩ - 60

/-- Two tasks whose titles differ only in case, used as witnesses for
the first-match-only semantics. -/
def dupTitleTasks : List Task :=
  [{ title := "Pay rent", description := "", category := "Bills",
     priority := 1, deadline := ⟨2099, 1, 1⟩, completed := false,
     assigned_user := "alice" },
   { title := "pay RENT", description := "x", category := "Bills",
     priority := 2, deadline := ⟨2099, 2, 2⟩, completed := false,
     assigned_user := "bob" }]

/-! ## Lemmas about the string primitives -/

theorem splitChar_ne_nil (sep : Char) (cs : List Char) : splitChar sep cs ≠ [] := by
  induction cs with
  | nil => simp [splitChar]
  | cons c cs ih =>
    rw [splitChar]
    split
    · simp
    · cases h : splitChar sep cs with
      | nil => simp
      | cons g gs => simp

theorem splitChar_sep_cons (sep : Char) (cs : List Char) :
    splitChar sep (sep :: cs) = [] :: splitChar sep cs := by
  rw [splitChar]
  simp

theorem splitChar_cons_ne (sep c : Char) (cs : List Char) (h : c ≠ sep) :
    splitChar sep (c :: cs) =
      match splitChar sep cs with
      | [] => [[c]]
      | g :: gs => (c :: g) :: gs := by
  rw [splitChar]
  simp [h]

theorem splitChar_no_sep (sep : Char) (cs : List Char) (h : sep ∉ cs) :
    splitChar sep cs = [cs] := by
  induction cs with
  | nil => rfl
  | cons c cs ih =>
    have hc : c ≠ sep := by rintro rfl; exact h (List.mem_cons_self _ _)
    have h2 : sep ∉ cs := fun hm => h (List.mem_cons_of_mem _ hm)
    rw [splitChar_cons_ne sep c cs hc, ih h2]

theorem splitChar_append (sep : Char) (xs ys : List Char) (h : sep ∉ xs) :
    splitChar sep (xs ++ sep :: ys) = xs :: splitChar sep ys := by
  induction xs with
  | nil => simpa using splitChar_sep_cons sep ys
  | cons x xs ih =>
    have hx : x ≠ sep := by rintro rfl; exact h (List.mem_cons_self _ _)
    have h2 : sep ∉ xs := fun hm => h (List.mem_cons_of_mem _ hm)
    rw [List.cons_append, splitChar_cons_ne sep x _ hx, ih h2]

theorem joinSep_splitChar (sep : Char) (cs : List Char) :
    joinSep sep (splitChar sep cs) = cs := by
  induction cs with
  | nil => rfl
  | cons c cs ih =>
    by_cases hc : c = sep
    · subst hc
      rw [splitChar_sep_cons]
      cases h : splitChar c cs with
      | nil => exact absurd h (splitChar_ne_nil c cs)
      | cons g gs =>
        rw [h] at ih
        show ([] : List Char) ++ c :: joinSep c (g :: gs) = c :: cs
        rw [List.nil_append, ih]
    · rw [splitChar_cons_ne sep c cs hc]
      cases h : splitChar sep cs with
      | nil => exact absurd h (splitChar_ne_nil sep cs)
      | cons g gs =>
        rw [h] at ih
        cases gs with
        | nil =>
          show c :: g = c :: cs
          simpa using ih
        | cons g2 gs2 =>
          show (c :: g) ++ sep :: joinSep sep (g2 :: gs2) = c :: cs
          rw [List.cons_append]
          have hj : joinSep sep (g :: g2 :: gs2) =
              g ++ sep :: joinSep sep (g2 :: gs2) := rfl
          rw [← hj, ih]

theorem sep_not_mem_of_mem_splitChar (sep : Char) (cs : List Char) (p : List Char)
    (hp : p ∈ splitChar sep cs) : sep ∉ p := by
  induction cs generalizing p with
  | nil =>
    simp [splitChar] at hp
    subst hp
    simp
  | cons c cs ih =>
    by_cases hc : c = sep
    · subst hc
      rw [splitChar_sep_cons] at hp
      rcases List.mem_cons.mp hp with h | h
      · subst h; simp
      · exact ih p h
    · rw [splitChar_cons_ne sep c cs hc] at hp
      cases h : splitChar sep cs with
      | nil => exact absurd h (splitChar_ne_nil sep cs)
      | cons g gs =>
        rw [h] at hp
        rcases List.mem_cons.mp hp with h2 | h2
        · subst h2
          intro hm
          rcases List.mem_cons.mp hm with h3 | h3
          · exact hc h3.symm
          · exact ih g (by rw [h]; exact List.mem_cons_self _ _) h3
        · exact ih p (by rw [h]; exact List.mem_cons_of_mem _ h2)

/-! ## Lemmas about decimal digits and `int`/`str` round trips -/

theorem ne_of_isDigit_of_not (c d : Char) (h : c.isDigit = true)
    (hd : d.isDigit = false) : c ≠ d := by
  intro heq
  subst heq
  exact Bool.noConfusion (h.symm.trans hd)

theorem digitsVal_cons (c : Char) (cs : List Char) :
    digitsVal (c :: cs) =
      List.foldl (fun a x => a * 10 + digitVal x) (digitVal c) cs := by
  simp [digitsVal]

theorem digitsVal_append_singleton (xs : List Char) (c : Char) :
    digitsVal (xs ++ [c]) = 10 * digitsVal xs + digitVal c := by
  simp [digitsVal, List.foldl_append, Nat.mul_comm]

theorem digitChar_isDigit (d : Nat) (h : d < 10) :
    (Nat.digitChar d).isDigit = true := by
  interval_cases d <;> decide

theorem digitVal_digitChar (d : Nat) (h : d < 10) :
    digitVal (Nat.digitChar d) = d := by
  interval_cases d <;> decide

theorem natDigits_ne_nil (n : Nat) : natDigits n ≠ [] := by
  rw [natDigits]
  split
  · simp
  · simp

theorem natDigits_all_digit (n : Nat) : ∀ c ∈ natDigits n, c.isDigit = true := by
  induction n using Nat.strong_induction_on with
  | _ n ih =>
    rw [natDigits]
    split
    · rename_i h
      intro c hc
      rcases List.mem_singleton.mp hc with rfl
      exact digitChar_isDigit n h
    · rename_i h
      intro c hc
      rcases List.mem_append.mp hc with h1 | h1
      · exact ih (n / 10) (Nat.div_lt_self (by omega) (by omega)) c h1
      · rcases List.mem_singleton.mp h1 with rfl
        exact digitChar_isDigit _ (Nat.mod_lt _ (by omega))

theorem digitsVal_natDigits (n : Nat) : digitsVal (natDigits n) = n := by
  induction n using Nat.strong_induction_on with
  | _ n ih =>
    rw [natDigits]
    split
    · rename_i h
      simp [digitsVal, digitVal_digitChar n h]
    · rename_i h
      rw [digitsVal_append_singleton,
        ih (n / 10) (Nat.div_lt_self (by omega) (by omega)),
        digitVal_digitChar _ (Nat.mod_lt _ (by omega))]
      omega

theorem natDigits_length_le (n k : Nat) (h : n < 10 ^ k) (hk : 1 ≤ k) :
    (natDigits n).length ≤ k := by
  induction k generalizing n with
  | zero => omega
  | succ k ihk =>
    rw [natDigits]
    split
    · simp
    · rename_i hn
      have hk1 : 1 ≤ k := by
        rcases Nat.eq_zero_or_pos k with rfl | hp
        · simp at h
          omega
        · exact hp
      have hdiv : n / 10 < 10 ^ k := by
        rw [Nat.div_lt_iff_lt_mul (by omega : 0 < 10)]
        calc n < 10 ^ (k + 1) := h
        _ = 10 ^ k * 10 := by rw [Nat.pow_succ]
      have := ihk (n / 10) hdiv hk1
      simp only [List.length_append, List.length_singleton]
      omega

theorem padZeros_all_digit (w : Nat) (cs : List Char)
    (h : ∀ c ∈ cs, c.isDigit = true) : ∀ c ∈ padZeros w cs, c.isDigit = true := by
  intro c hc
  rcases List.mem_append.mp hc with h1 | h1
  · rcases List.eq_of_mem_replicate h1 with rfl
    decide
  · exact h c h1

theorem padZeros_length (w : Nat) (cs : List Char) (h : cs.length ≤ w) :
    (padZeros w cs).length = w := by
  simp [padZeros]
  omega

theorem digitsVal_padZeros (w : Nat) (cs : List Char) :
    digitsVal (padZeros w cs) = digitsVal cs := by
  unfold padZeros
  generalize w - cs.length = k
  induction k with
  | zero => rfl
  | succ k ihk =>
    rw [List.replicate_succ, List.cons_append, digitsVal_cons]
    have h0 : digitVal (Char.ofNat 48) = 0 := by decide
    rw [h0]
    exact ihk

theorem not_space_of_isDigit (c : Char) (h : c.isDigit = true) :
    isPySpace c = false := by
  rcases Bool.eq_false_or_eq_true (isPySpace c) with hx | hx
  · exfalso
    simp only [isPySpace, Bool.or_eq_true, beq_iff_eq] at hx
    rcases hx with ((((h1 | h1) | h1) | h1) | h1) | h1 <;>
      (subst h1; exact absurd h (by decide))
  · exact hx

theorem dropWhile_eq_self_of_all (p : Char → Bool) (cs : List Char)
    (h : ∀ c ∈ cs, p c = false) : cs.dropWhile p = cs := by
  cases cs with
  | nil => rfl
  | cons c rest =>
    rw [List.dropWhile_cons]
    simp [h c (List.mem_cons_self _ _)]

theorem stripList_eq_self (cs : List Char) (h : ∀ c ∈ cs, isPySpace c = false) :
    stripList cs = cs := by
  unfold stripList
  rw [dropWhile_eq_self_of_all _ _ h,
    dropWhile_eq_self_of_all _ _ (fun c hc => h c (List.mem_reverse.mp hc)),
    List.reverse_reverse]

theorem scanDigits_all_digits (cs : List Char) (h : ∀ c ∈ cs, c.isDigit = true) :
    scanDigits cs = some cs := by
  induction cs with
  | nil => rfl
  | cons c rest ih =>
    rw [scanDigits.eq_def]
    simp [h c (List.mem_cons_self _ _),
      ih (fun x hx => h x (List.mem_cons_of_mem _ hx))]

theorem pyNatList?_digits (c : Char) (rest : List Char)
    (h : ∀ x ∈ c :: rest, x.isDigit = true) :
    pyNatList? (c :: rest) = some (digitsVal (c :: rest)) := by
  rw [pyNatList?]
  simp [h c (List.mem_cons_self _ _), scanDigits_all_digits _ h]

theorem pyIntList?_dash (rest : List Char) :
    pyIntList? (Char.ofNat 45 :: rest) =
      (pyNatList? rest).map (fun n => -(n : Int)) := by
  rw [pyIntList?, if_neg (by decide), if_pos (by decide)]

theorem pyIntList?_digits (c : Char) (rest : List Char)
    (h : ∀ x ∈ c :: rest, x.isDigit = true) :
    pyIntList? (c :: rest) = some ((digitsVal (c :: rest) : Int)) := by
  have hc := h c (List.mem_cons_self _ _)
  have h43 : c ≠ Char.ofNat 43 := ne_of_isDigit_of_not _ _ hc (by decide)
  have h45 : c ≠ Char.ofNat 45 := ne_of_isDigit_of_not _ _ hc (by decide)
  rw [pyIntList?, if_neg (by simp [h43]), if_neg (by simp [h45]),
    pyNatList?_digits c rest h]
  rfl

/-- Claim-independent core fact: parsing back the decimal form written
by `str(int)` recovers the integer. -/
theorem pyInt?_intStr (p : Int) : pyInt? (intStr p) = some p := by
  unfold pyInt? intStr
  have hdig := natDigits_all_digit p.natAbs
  obtain ⟨c, rest, hcr⟩ := List.exists_cons_of_ne_nil (natDigits_ne_nil p.natAbs)
  split
  · rename_i hneg
    show pyIntList? (stripList (Char.ofNat 45 :: natDigits p.natAbs)) = some p
    rw [stripList_eq_self _ ?nosp, pyIntList?_dash, hcr,
      pyNatList?_digits c rest (by rw [← hcr]; exact hdig), ← hcr,
      digitsVal_natDigits]
    case nosp =>
      intro x hx
      rcases List.mem_cons.mp hx with rfl | hm
      · decide
      · exact not_space_of_isDigit x (hdig x hm)
    show some (-(p.natAbs : Int)) = some p
    congr 1
    omega
  · rename_i hneg
    show pyIntList? (stripList (natDigits p.natAbs)) = some p
    rw [stripList_eq_self _ (fun x hx => not_space_of_isDigit x (hdig x hx)),
      hcr, pyIntList?_digits c rest (by rw [← hcr]; exact hdig), ← hcr,
      digitsVal_natDigits]
    congr 1
    omega

/-! ## Lemmas about dates -/

theorem daysInMonth_le (y m : Nat) : daysInMonth y m ≤ 31 := by
  unfold daysInMonth
  split
  · split <;> omega
  · split <;> omega

theorem dateToString_data (d : Date) :
    (dateToString d).data =
      padZeros 4 (natDigits d.year) ++ Char.ofNat 45 ::
        (padZeros 2 (natDigits d.month) ++ Char.ofNat 45 ::
          padZeros 2 (natDigits d.day)) := rfl

/-- Claim-independent core fact: for every date representable by
`datetime`, `strptime` applied to the ISO form written by `str(date)`
recovers the date. -/
theorem parseDate_dateToString (d : Date) (h : d.Valid) :
    parseDate (dateToString d) = some d := by
  obtain ⟨h1, h2, h3, h4, h5, h6⟩ := h
  have hy := padZeros_all_digit 4 _ (natDigits_all_digit d.year)
  have hm := padZeros_all_digit 2 _ (natDigits_all_digit d.month)
  have hd := padZeros_all_digit 2 _ (natDigits_all_digit d.day)
  have hyn : Char.ofNat 45 ∉ padZeros 4 (natDigits d.year) :=
    fun hmem => absurd rfl (ne_of_isDigit_of_not _ _ (hy _ hmem) (by decide))
  have hmn : Char.ofNat 45 ∉ padZeros 2 (natDigits d.month) :=
    fun hmem => absurd rfl (ne_of_isDigit_of_not _ _ (hm _ hmem) (by decide))
  have hdn : Char.ofNat 45 ∉ padZeros 2 (natDigits d.day) :=
    fun hmem => absurd rfl (ne_of_isDigit_of_not _ _ (hd _ hmem) (by decide))
  have hylen : (padZeros 4 (natDigits d.year)).length = 4 :=
    padZeros_length 4 _ (natDigits_length_le d.year 4 (by omega) (by omega))
  have hmlen : (padZeros 2 (natDigits d.month)).length = 2 :=
    padZeros_length 2 _ (natDigits_length_le d.month 2 (by omega) (by omega))
  have hdlen : (padZeros 2 (natDigits d.day)).length = 2 := by
    have h31 := daysInMonth_le d.year d.month
    exact padZeros_length 2 _ (natDigits_length_le d.day 2 (by omega) (by omega))
  have hyv : digitsVal (padZeros 4 (natDigits d.year)) = d.year := by
    rw [digitsVal_padZeros, digitsVal_natDigits]
  have hmv : digitsVal (padZeros 2 (natDigits d.month)) = d.month := by
    rw [digitsVal_padZeros, digitsVal_natDigits]
  have hdv : digitsVal (padZeros 2 (natDigits d.day)) = d.day := by
    rw [digitsVal_padZeros, digitsVal_natDigits]
  have h31 := daysInMonth_le d.year d.month
  unfold parseDate
  rw [dateToString_data, splitChar_append _ _ _ hyn, splitChar_append _ _ _ hmn,
    splitChar_no_sep _ _ hdn]
  show (if _ then if _ then if _ then some _ else none else none else none) =
    some d
  split_ifs with hA hB hC
  · show some ⟨_, _, _⟩ = some d
    rw [hyv, hmv, hdv]
  · exfalso
    apply hC
    simp only [Bool.and_eq_true, decide_eq_true_eq, hyv, hmv, hdv]
    exact ⟨h1, h6⟩
  · exfalso
    apply hB
    simp only [Bool.and_eq_true, decide_eq_true_eq, hmv, hdv]
    omega
  · exfalso
    apply hA
    simp only [Bool.and_eq_true, Bool.or_eq_true, beq_iff_eq, List.all_eq_true,
      hylen, hmlen, hdlen]
    exact ⟨⟨⟨⟨⟨trivial, hy⟩, Or.inr trivial⟩, hm⟩, Or.inr trivial⟩, hd⟩

/-- Claim-independent core fact: exactly which strings `strptime`
accepts with format `'%Y-%m-%d'` — a four-digit year, a one- or
two-digit month 1–12, a one- or two-digit day that exists in that
month, and a year at least 1. -/
theorem parseDate_isSome_iff (s : String) :
    (∃ d, parseDate s = some d) ↔
      ∃ ys ms ds : List Char,
        s.data = ys ++ Char.ofNat 45 :: (ms ++ Char.ofNat 45 :: ds) ∧
        ys.length = 4 ∧ (∀ c ∈ ys, c.isDigit = true) ∧
        (ms.length = 1 ∨ ms.length = 2) ∧ (∀ c ∈ ms, c.isDigit = true) ∧
        (ds.length = 1 ∨ ds.length = 2) ∧ (∀ c ∈ ds, c.isDigit = true) ∧
        1 ≤ digitsVal ys ∧ 1 ≤ digitsVal ms ∧ digitsVal ms ≤ 12 ∧
        1 ≤ digitsVal ds ∧
        digitsVal ds ≤ daysInMonth (digitsVal ys) (digitsVal ms) := by
  constructor
  · rintro ⟨d, hd⟩
    unfold parseDate at hd
    split at hd
    · rename_i ys ms ds heq
      split_ifs at hd with hA hB hC
      · simp only [Bool.and_eq_true, Bool.or_eq_true, beq_iff_eq,
          List.all_eq_true, decide_eq_true_eq] at hA hB hC
        refine ⟨ys, ms, ds, ?_, hA.1.1.1.1.1, hA.1.1.1.1.2, hA.1.1.1.2,
          hA.1.1.2, hA.1.2, hA.2, hC.1, hB.1.1.1, hB.1.1.2, hB.1.2, hC.2⟩
        have hj := joinSep_splitChar (Char.ofNat 45) s.data
        rw [heq] at hj
        exact hj.symm
    · exact Option.noConfusion hd
  · rintro ⟨ys, ms, ds, hs, hylen, hy, hmlen, hm, hdlen, hdg, hy1, hm1, hm12,
      hd1, hdm⟩
    have hyn : Char.ofNat 45 ∉ ys :=
      fun hmem => absurd rfl (ne_of_isDigit_of_not _ _ (hy _ hmem) (by decide))
    have hmn : Char.ofNat 45 ∉ ms :=
      fun hmem => absurd rfl (ne_of_isDigit_of_not _ _ (hm _ hmem) (by decide))
    have hdn : Char.ofNat 45 ∉ ds :=
      fun hmem => absurd rfl (ne_of_isDigit_of_not _ _ (hdg _ hmem) (by decide))
    refine ⟨⟨digitsVal ys, digitsVal ms, digitsVal ds⟩, ?_⟩
    unfold parseDate
    rw [hs, splitChar_append _ _ _ hyn, splitChar_append _ _ _ hmn,
      splitChar_no_sep _ _ hdn]
    show (if _ then if _ then if _ then some _ else none else none else none) =
      some _
    split_ifs with hA hB hC
    · rfl
    · exfalso
      apply hC
      simp only [Bool.and_eq_true, decide_eq_true_eq]
      exact ⟨hy1, hdm⟩
    · exfalso
      apply hB
      simp only [Bool.and_eq_true, decide_eq_true_eq]
      have := daysInMonth_le (digitsVal ys) (digitsVal ms)
      omega
    · exfalso
      apply hA
      simp only [Bool.and_eq_true, Bool.or_eq_true, beq_iff_eq,
        List.all_eq_true]
      exact ⟨⟨⟨⟨⟨hylen, hy⟩, hmlen⟩, hm⟩, hdlen⟩, hdg⟩

/-! ## Lemmas about the serialization codec -/

theorem mk_data (s : String) : (⟨s.data⟩ : String) = s := rfl

theorem not_mem_of_noDelim (s : String) (h : noDelim s = true) :
    Char.ofNat 124 ∉ s.data := by
  intro hm
  simp only [noDelim, List.all_eq_true] at h
  have hc := h _ hm
  simp at hc

theorem not_mem_intStr (p : Int) : Char.ofNat 124 ∉ (intStr p).data := by
  intro hm
  unfold intStr at hm
  split at hm
  · rcases List.mem_cons.mp hm with h | h
    · exact absurd h (by decide)
    · exact absurd rfl
        (ne_of_isDigit_of_not _ _ (natDigits_all_digit _ _ h) (by decide))
  · exact absurd rfl
      (ne_of_isDigit_of_not _ _ (natDigits_all_digit _ _ hm) (by decide))

theorem not_mem_dateToString (d : Date) :
    Char.ofNat 124 ∉ (dateToString d).data := by
  intro hm
  rw [dateToString_data] at hm
  have hdig : ∀ cs : List Char, (∀ c ∈ cs, c.isDigit = true) →
      Char.ofNat 124 ∉ cs := fun cs hcs hmem =>
    absurd rfl (ne_of_isDigit_of_not _ _ (hcs _ hmem) (by decide))
  rcases List.mem_append.mp hm with h | h
  · exact hdig _ (padZeros_all_digit 4 _ (natDigits_all_digit d.year)) h
  · rcases List.mem_cons.mp h with h | h
    · exact absurd h (by decide)
    · rcases List.mem_append.mp h with h | h
      · exact hdig _ (padZeros_all_digit 2 _ (natDigits_all_digit d.month)) h
      · rcases List.mem_cons.mp h with h | h
        · exact absurd h (by decide)
        · exact hdig _ (padZeros_all_digit 2 _ (natDigits_all_digit d.day)) h

theorem not_mem_pyBoolStr (b : Bool) :
    Char.ofNat 124 ∉ (pyBoolStr b).data := by
  cases b <;> decide

theorem to_file_string_data (t : Task) :
    (Task.to_file_string t).data =
      t.title.data ++ Char.ofNat 124 ::
        (t.description.data ++ Char.ofNat 124 ::
          (t.category.data ++ Char.ofNat 124 ::
            ((intStr t.priority).data ++ Char.ofNat 124 ::
              ((dateToString t.deadline).data ++ Char.ofNat 124 ::
                (t.assigned_user.data ++ Char.ofNat 124 ::
                  (pyBoolStr t.completed).data))))) := by
  have hbar : ("|" : String).data = [Char.ofNat 124] := by decide
  simp [Task.to_file_string, hbar]

theorem splitChar_to_file_string (t : Task)
    (h1 : noDelim t.title = true) (h2 : noDelim t.description = true)
    (h3 : noDelim t.category = true) (h4 : noDelim t.assigned_user = true) :
    splitChar (Char.ofNat 124) (Task.to_file_string t).data =
      [t.title.data, t.description.data, t.category.data,
        (intStr t.priority).data, (dateToString t.deadline).data,
        t.assigned_user.data, (pyBoolStr t.completed).data] := by
  rw [to_file_string_data,
    splitChar_append _ _ _ (not_mem_of_noDelim _ h1),
    splitChar_append _ _ _ (not_mem_of_noDelim _ h2),
    splitChar_append _ _ _ (not_mem_of_noDelim _ h3),
    splitChar_append _ _ _ (not_mem_intStr t.priority),
    splitChar_append _ _ _ (not_mem_dateToString t.deadline),
    splitChar_append _ _ _ (not_mem_of_noDelim _ h4),
    splitChar_no_sep _ _ (not_mem_pyBoolStr t.completed)]

theorem pyLower_pyBoolStr (b : Bool) :
    (pyLower (pyBoolStr b) == "true") = b := by
  cases b <;> decide

/-- C1: for every Task whose string fields contain no `|` delimiter and
whose deadline is a date representable by `datetime` (as every stored
deadline is), deserializing the serialized line yields a Task with the
same title, description, category, priority, deadline, assigned user
and completed flag. -/
theorem c1_round_trip (t : Task)
    (h1 : noDelim t.title = true) (h2 : noDelim t.description = true)
    (h3 : noDelim t.category = true) (h4 : noDelim t.assigned_user = true)
    (h5 : t.deadline.Valid) :
    Task.from_file_string (Task.to_file_string t) = some t := by
  unfold Task.from_file_string
  rw [splitChar_to_file_string t h1 h2 h3 h4]
  show (match pyInt? (intStr t.priority), parseDate (dateToString t.deadline)
      with
    | some pr, some dl =>
      some { title := t.title, description := t.description,
             category := t.category, priority := pr, deadline := dl,
             assigned_user := t.assigned_user,
             completed := pyLower (pyBoolStr t.completed) == "true" }
    | _, _ => none) = some t
  rw [pyInt?_intStr, parseDate_dateToString t.deadline h5]
  show some { t with completed := pyLower (pyBoolStr t.completed) == "true" } =
    some t
  rw [pyLower_pyBoolStr]

/-- C2 (amended): `Task.from_file_string` fails exactly when the line
splits on the delimiter into fewer than 7 parts, or its fourth field is
not a decimal integer, or its fifth field is not a parsable date; a
line with more than 7 parts is not rejected — the extra fields are
ignored. -/
theorem c2_malformed_line_failure_iff (line : String) :
    Task.from_file_string line = none ↔
      (splitChar (Char.ofNat 124) line.data).length < 7 ∨
      (∃ p, (splitChar (Char.ofNat 124) line.data)[3]? = some p ∧
        pyInt? ⟨p⟩ = none) ∨
      (∃ p, (splitChar (Char.ofNat 124) line.data)[4]? = some p ∧
        parseDate ⟨p⟩ = none) := by
  unfold Task.from_file_string
  rcases h : splitChar (Char.ofNat 124) line.data with _ |
    ⟨p0, _ | ⟨p1, _ | ⟨p2, _ | ⟨p3, _ | ⟨p4, _ | ⟨p5, _ | ⟨p6, rest⟩⟩⟩⟩⟩⟩⟩
  · simp
  · simp
  · simp
  · simp
  · simp
  · simp
  · simp
  · rcases hint : pyInt? ⟨p3⟩ with _ | pr <;>
      rcases hdate : parseDate ⟨p4⟩ with _ | dl <;>
      simp [hint, hdate]

/-! ## Lemmas about the store operations -/

theorem mark_eq_of_first_match (tasks : List Task) (title : String) (i : Nat)
    (hi : i < tasks.length)
    (hm : titleMatches (tasks.get ⟨i, hi⟩) title = true)
    (hf : ∀ j (hj : j < i),
      titleMatches (tasks.get ⟨j, Nat.lt_trans hj hi⟩) title = false) :
    mark_task_as_completed tasks title =
      (tasks.take i ++
        (tasks.get ⟨i, hi⟩).mark_as_completed :: tasks.drop (i + 1), true) := by
  induction tasks generalizing i with
  | nil => exact absurd hi (by simp)
  | cons t ts ih =>
    cases i with
    | zero =>
      have hm0 : titleMatches t title = true := hm
      rw [mark_task_as_completed, if_pos hm0]
      simp
    | succ j =>
      have h0 : titleMatches t title = false := hf 0 (Nat.succ_pos j)
      rw [mark_task_as_completed, if_neg (by simp [h0])]
      have ih2 := ih j (Nat.lt_of_succ_lt_succ hi) hm
        (fun j2 hj2 => hf (j2 + 1) (Nat.succ_lt_succ hj2))
      simp only [ih2, List.take_succ_cons, List.drop_succ_cons,
        List.cons_append]
      rfl

theorem delete_eq_of_first_match (tasks : List Task) (title : String) (i : Nat)
    (hi : i < tasks.length)
    (hm : titleMatches (tasks.get ⟨i, hi⟩) title = true)
    (hf : ∀ j (hj : j < i),
      titleMatches (tasks.get ⟨j, Nat.lt_trans hj hi⟩) title = false) :
    delete_task tasks title =
      (tasks.take i ++ tasks.drop (i + 1), true) := by
  induction tasks generalizing i with
  | nil => exact absurd hi (by simp)
  | cons t ts ih =>
    cases i with
    | zero =>
      have hm0 : titleMatches t title = true := hm
      rw [delete_task, if_pos hm0]
      simp
    | succ j =>
      have h0 : titleMatches t title = false := hf 0 (Nat.succ_pos j)
      rw [delete_task, if_neg (by simp [h0])]
      have ih2 := ih j (Nat.lt_of_succ_lt_succ hi) hm
        (fun j2 hj2 => hf (j2 + 1) (Nat.succ_lt_succ hj2))
      simp only [ih2, List.take_succ_cons, List.drop_succ_cons,
        List.cons_append]

theorem mark_not_found (tasks : List Task) (title : String)
    (h : ∀ t ∈ tasks, titleMatches t title = false) :
    mark_task_as_completed tasks title = (tasks, false) := by
  induction tasks with
  | nil => rfl
  | cons t ts ih =>
    rw [mark_task_as_completed,
      if_neg (by simp [h t (List.mem_cons_self _ _)])]
    simp only [ih (fun x hx => h x (List.mem_cons_of_mem _ hx))]

theorem delete_not_found (tasks : List Task) (title : String)
    (h : ∀ t ∈ tasks, titleMatches t title = false) :
    delete_task tasks title = (tasks, false) := by
  induction tasks with
  | nil => rfl
  | cons t ts ih =>
    rw [delete_task, if_neg (by simp [h t (List.mem_cons_self _ _)])]
    simp only [ih (fun x hx => h x (List.mem_cons_of_mem _ hx))]

theorem mark_length (tasks : List Task) (title : String) :
    (mark_task_as_completed tasks title).1.length = tasks.length := by
  induction tasks with
  | nil => rfl
  | cons t ts ih =>
    rw [mark_task_as_completed]
    split
    · simp
    · simp [ih]

theorem mark_getElem? (tasks : List Task) (title : String) (i : Nat)
    (hi : i < tasks.length)
    (hm : titleMatches (tasks.get ⟨i, hi⟩) title = true)
    (hf : ∀ j (hj : j < i),
      titleMatches (tasks.get ⟨j, Nat.lt_trans hj hi⟩) title = false)
    (j : Nat) :
    (mark_task_as_completed tasks title).1[j]? =
      if j = i then some (tasks.get ⟨i, hi⟩).mark_as_completed
      else tasks[j]? := by
  rw [mark_eq_of_first_match tasks title i hi hm hf]
  rcases Nat.lt_trichotomy j i with hj | hj | hj
  · rw [if_neg (by omega), List.getElem?_append_left
      (by simp [List.length_take]; omega), List.getElem?_take_of_lt hj]
  · subst hj
    rw [if_pos rfl, List.getElem?_append_right
      (by simp [List.length_take])]
    have hlen : (tasks.take j).length = j := by
      simp [List.length_take]
      omega
    rw [hlen, Nat.sub_self]
    simp
  · rw [if_neg (by omega), List.getElem?_append_right
      (by simp [List.length_take]; omega)]
    have hlen : (tasks.take i).length = i := by
      simp [List.length_take]
      omega
    rw [hlen]
    obtain ⟨k, hk⟩ : ∃ k, j - i = k + 1 := ⟨j - i - 1, by omega⟩
    rw [hk, List.getElem?_cons_succ, List.getElem?_drop]
    congr 1
    omega

theorem load_eq_none_of_bad_line (lines : List String)
    (h : ∃ l ∈ lines, Task.from_file_string (pyStrip l) = none) :
    load_tasks_from_file lines = none := by
  induction lines with
  | nil => simp at h
  | cons l rest ih =>
    rw [load_tasks_from_file]
    rcases h with ⟨l2, hmem, hl2⟩
    rcases List.mem_cons.mp hmem with rfl | hmem2
    · rw [hl2]
    · cases hc : Task.from_file_string (pyStrip l)
      · rfl
      · rw [ih ⟨l2, hmem2, hl2⟩]
        rfl

theorem filterMap_if_eq_filter_map {α β : Type} (p : α → Bool) (f : α → β)
    (xs : List α) :
    xs.filterMap (fun x => if p x then some (f x) else none) =
      (xs.filter p).map f := by
  induction xs with
  | nil => rfl
  | cons x rest ih =>
    rw [List.filterMap_cons, List.filter_cons]
    by_cases hp : p x
    · simp [hp, ih]
    · simp [hp, ih]

/-! ## The claims -/

/-- Witness for C1 at the spec's end-to-end example task. -/
theorem c1_round_trip_witness :
    noDelim "Pay rent" = true ∧ (⟨2099, 1, 1⟩ : Date).Valid ∧
    Task.from_file_string (Task.to_file_string
      { title := "Pay rent", description := "", category := "Bills",
        priority := 1, deadline := ⟨2099, 1, 1⟩, completed := false,
        assigned_user := "alice" }) =
      some { title := "Pay rent", description := "", category := "Bills",
             priority := 1, deadline := ⟨2099, 1, 1⟩, completed := false,
             assigned_user := "alice" } :=
  ⟨by decide, by decide,
    c1_round_trip _ (by decide) (by decide) (by decide) (by decide)
      (by decide)⟩

/-- C2 counterexample: a line with eight fields does not split into
exactly 7 parts, yet `from_file_string` succeeds rather than failing —
the eighth field is silently ignored. -/
theorem c2_counterexample_extra_fields :
    (splitChar (Char.ofNat 124)
      ("a|b|c|1|2099-01-01|u|true|extra" : String).data).length ≠ 7 ∧
    Task.from_file_string "a|b|c|1|2099-01-01|u|true|extra" ≠ none := by
  decide

/-- C3: if any line of the backing file fails to deserialize, opening
the store fails as a whole and yields no task collection — there is no
partial or best-effort load. -/
theorem c3_load_all_or_nothing (lines : List String)
    (h : ∃ l ∈ lines, Task.from_file_string (pyStrip l) = none) :
    taskManager_open (some lines) = none :=
  load_eq_none_of_bad_line lines h

/-- Witness for C3: one well-formed line followed by a line with only 5
fields aborts the load. -/
theorem c3_load_all_or_nothing_witness :
    (∃ l ∈ ["Pay rent||Bills|1|2099-01-01|alice|False",
      "a|b|c|1|2099-01-01"], Task.from_file_string (pyStrip l) = none) ∧
    taskManager_open (some ["Pay rent||Bills|1|2099-01-01|alice|False",
      "a|b|c|1|2099-01-01"]) = none :=
  ⟨by decide, c3_load_all_or_nothing _ (by decide)⟩

/-- C4 counterexample: `"2024-1-5"` is not of the strict four-two-two
digit shape, yet Task creation succeeds on it — `strptime` accepts one-
digit months and days. -/
theorem c4_counterexample_lenient_date :
    isStrictYMD "2024-1-5" = false ∧
    Task.create "t" "d" "c" 1 "2024-1-5" "u" =
      some { title := "t", description := "d", category := "c",
             priority := 1, deadline := ⟨2024, 1, 5⟩, completed := false,
             assigned_user := "u" } := by
  decide

/-- C4 (amended): Task creation succeeds exactly when the deadline
string is year-dash-month-dash-day with a four-digit year, a one- or
two-digit month in 1–12, a one- or two-digit day that exists in that
month, and year at least 1; zero-padding of month and day is not
required. -/
theorem c4_amended_create_iff (title description category : String)
    (priority : Int) (deadline : String) (assigned_user : String) :
    (∃ t, Task.create title description category priority deadline
        assigned_user = some t) ↔
      ∃ ys ms ds : List Char,
        deadline.data = ys ++ Char.ofNat 45 :: (ms ++ Char.ofNat 45 :: ds) ∧
        ys.length = 4 ∧ (∀ c ∈ ys, c.isDigit = true) ∧
        (ms.length = 1 ∨ ms.length = 2) ∧ (∀ c ∈ ms, c.isDigit = true) ∧
        (ds.length = 1 ∨ ds.length = 2) ∧ (∀ c ∈ ds, c.isDigit = true) ∧
        1 ≤ digitsVal ys ∧ 1 ≤ digitsVal ms ∧ digitsVal ms ≤ 12 ∧
        1 ≤ digitsVal ds ∧
        digitsVal ds ≤ daysInMonth (digitsVal ys) (digitsVal ms) := by
  rw [← parseDate_isSome_iff]
  unfold Task.create
  constructor
  · rintro ⟨t, ht⟩
    rcases hp : parseDate deadline with _ | d
    · simp [hp] at ht
    · exact ⟨d, rfl⟩
  · rintro ⟨d, hd⟩
    rw [hd]
    exact ⟨_, rfl⟩

/-- C5: a reminder line is in the snapshot exactly when it comes from a
task that is not completed and whose deadline is strictly after `now`
and strictly before `now + 24h`; deadlines equal to either bound and
completed tasks are excluded. -/
theorem c5_reminder_window_iff (tasks : List Task) (now : Int) (s : String) :
    s ∈ check_upcoming_deadlines tasks now ↔
      ∃ t ∈ tasks, t.completed = false ∧ now < t.deadline.toMinutes ∧
        t.deadline.toMinutes < now + 1440 ∧ s = reminderMsg t := by
  simp only [check_upcoming_deadlines, List.mem_filterMap]
  constructor
  · rintro ⟨t, ht, hsome⟩
    by_cases hc : dueSoon t now
    · rw [if_pos hc] at hsome
      obtain ⟨h1, h2, h3⟩ := hc
      exact ⟨t, ht, h1, h2, h3, (Option.some.inj hsome).symm⟩
    · rw [if_neg hc] at hsome
      exact Option.noConfusion hsome
  · rintro ⟨t, ht, h1, h2, h3, rfl⟩
    exact ⟨t, ht, by rw [if_pos (show dueSoon t now from ⟨h1, h2, h3⟩)]⟩

/-- C6: `mark_task_as_completed` and `delete_task` act on the first
case-insensitive title match in insertion order only: marking rewrites
exactly that task with `completed := true`, deletion removes exactly
that task, and every later task — including later tasks with the same
title — is left untouched. -/
theorem c6_first_match_only (tasks : List Task) (title : String)
    (i : Nat) (hi : i < tasks.length)
    (hm : titleMatches (tasks.get ⟨i, hi⟩) title = true)
    (hf : ∀ j (hj : j < i),
      titleMatches (tasks.get ⟨j, Nat.lt_trans hj hi⟩) title = false) :
    mark_task_as_completed tasks title =
      (tasks.take i ++
        (tasks.get ⟨i, hi⟩).mark_as_completed :: tasks.drop (i + 1), true) ∧
    delete_task tasks title =
      (tasks.take i ++ tasks.drop (i + 1), true) :=
  ⟨mark_eq_of_first_match tasks title i hi hm hf,
   delete_eq_of_first_match tasks title i hi hm hf⟩

/-- Witness for C6 on two tasks whose titles match `"PAY RENT"` case-
insensitively: only the first is marked, only the first is deleted. -/
theorem c6_first_match_only_witness :
    titleMatches (dupTitleTasks.get ⟨0, by decide⟩) "PAY RENT" = true ∧
    mark_task_as_completed dupTitleTasks "PAY RENT" =
      ([{ title := "Pay rent", description := "", category := "Bills",
          priority := 1, deadline := ⟨2099, 1, 1⟩, completed := true,
          assigned_user := "alice" },
        { title := "pay RENT", description := "x", category := "Bills",
          priority := 2, deadline := ⟨2099, 2, 2⟩, completed := false,
          assigned_user := "bob" }], true) ∧
    delete_task dupTitleTasks "PAY RENT" =
      ([{ title := "pay RENT", description := "x", category := "Bills",
          priority := 2, deadline := ⟨2099, 2, 2⟩, completed := false,
          assigned_user := "bob" }], true) := by
  have h := c6_first_match_only dupTitleTasks "PAY RENT" 0 (by decide)
    (by decide) (fun j hj => absurd hj (Nat.not_lt_zero j))
  refine ⟨by decide, ?_, ?_⟩
  · rw [h.1]
    decide
  · rw [h.2]
    decide

/-- C7: when no task's title matches, both operations return the
not-found sentinel, leave the collection unchanged in content, order
and length, and do not rewrite the backing file. -/
theorem c7_not_found_unchanged (tasks : List Task) (title : String)
    (h : ∀ t ∈ tasks, titleMatches t title = false) :
    mark_task_as_completed tasks title = (tasks, false) ∧
    delete_task tasks title = (tasks, false) :=
  ⟨mark_not_found tasks title h, delete_not_found tasks title h⟩

/-- Witness for C7: an absent title changes nothing and saves nothing. -/
theorem c7_not_found_unchanged_witness :
    (∀ t ∈ dupTitleTasks, titleMatches t "Groceries" = false) ∧
    mark_task_as_completed dupTitleTasks "Groceries" =
      (dupTitleTasks, false) ∧
    delete_task dupTitleTasks "Groceries" = (dupTitleTasks, false) := by
  have h := c7_not_found_unchanged dupTitleTasks "Groceries" (by decide)
  exact ⟨by decide, h.1, h.2⟩

/-- C8 (code bug): the scan cycle does not publish the snapshot
atomically — it clears the shared `upcoming_reminders` list in place
and then appends one reminder at a time.  With two due tasks the shared
list passes through a half-built one-element state that is neither the
previous snapshot (the same two reminders recomputed one minute
earlier) nor the final snapshot, and the main thread reads the list
concurrently between those operations. -/
theorem c8_half_built_state_observable :
    ∃ s ∈ scan_cycle_states twoDueTasks beforeMidnight,
      s ≠ check_upcoming_deadlines twoDueTasks (beforeMidnight - 1) ∧
      s ≠ check_upcoming_deadlines twoDueTasks beforeMidnight := by
  decide

/-- C9: `list_tasks_by_category` returns exactly the display rows of
the tasks whose category matches case-insensitively, in insertion
order, and a row is in the result exactly when it renders such a
task. -/
theorem c9_filter_by_category (tasks : List Task) (category : String) :
    list_tasks_by_category tasks category =
      (tasks.filter (fun t => pyLower t.category == pyLower category)).map
        Task.to_row ∧
    ∀ r, r ∈ list_tasks_by_category tasks category ↔
      ∃ t ∈ tasks, pyLower t.category = pyLower category ∧
        r = Task.to_row t := by
  constructor
  · exact filterMap_if_eq_filter_map _ _ tasks
  · intro r
    simp only [list_tasks_by_category, List.mem_filterMap]
    constructor
    · rintro ⟨t, ht, hsome⟩
      by_cases hc : (pyLower t.category == pyLower category) = true
      · rw [if_pos hc] at hsome
        exact ⟨t, ht, beq_iff_eq.mp hc, (Option.some.inj hsome).symm⟩
      · rw [if_neg hc] at hsome
        exact Option.noConfusion hsome
    · rintro ⟨t, ht, hcat, rfl⟩
      exact ⟨t, ht, by rw [if_pos (beq_iff_eq.mpr hcat)]⟩

/-- C10: when a title matches, marking changes only the `completed`
flag of the first matching task: the length is unchanged, every other
position holds the same task as before, and the matched position holds
the same task with only `completed` set. -/
theorem c10_mark_frame (tasks : List Task) (title : String)
    (i : Nat) (hi : i < tasks.length)
    (hm : titleMatches (tasks.get ⟨i, hi⟩) title = true)
    (hf : ∀ j (hj : j < i),
      titleMatches (tasks.get ⟨j, Nat.lt_trans hj hi⟩) title = false) :
    (mark_task_as_completed tasks title).1.length = tasks.length ∧
    (∀ j, j ≠ i →
      (mark_task_as_completed tasks title).1[j]? = tasks[j]?) ∧
    (mark_task_as_completed tasks title).1[i]? =
      some { tasks.get ⟨i, hi⟩ with completed := true } :=
  ⟨mark_length tasks title,
   fun j hj => by rw [mark_getElem? tasks title i hi hm hf j, if_neg hj],
   by rw [mark_getElem? tasks title i hi hm hf i, if_pos rfl]; rfl⟩

/-- Witness for C10: marking the first of two tasks leaves position 1
untouched and only flips `completed` at position 0. -/
theorem c10_mark_frame_witness :
    (mark_task_as_completed dupTitleTasks "PAY RENT").1.length =
      dupTitleTasks.length ∧
    (mark_task_as_completed dupTitleTasks "PAY RENT").1[1]? =
      dupTitleTasks[1]? ∧
    (mark_task_as_completed dupTitleTasks "PAY RENT").1[0]? =
      some { dupTitleTasks.get ⟨0, by decide⟩ with completed := true } := by
  have h := c10_mark_frame dupTitleTasks "PAY RENT" 0 (by decide) (by decide)
    (fun j hj => absurd hj (Nat.not_lt_zero j))
  exact ⟨h.1, h.2.1 1 (by decide), h.2.2⟩

end TaskSystem
